import Mathlib

/-!
Verification of the Blender Cloud addon's asynchronous transfer core against
its natural-language specification.  The Python sources are shallowly
embedded: `blender_cloud/pillar.py` (conditional fetcher and thumbnail batch
downloader), `blender_cloud/async_loop.py` (per-frame cooperative scheduler)
and `blender_cloud/flamenco/sdk.py` (path-variable substitution).
-/

/-! ## Python value model

JSON values that can appear in a validator sidecar, together with Python's
truthiness and `int()` coercion. -/

inductive PyVal where
  | str (s : String)
  | int (n : Int)
  | null
deriving DecidableEq

/-- Python truthiness: `''`, `0` and `None` are falsy. -/
def truthy : PyVal → Bool
  | .str s => s ≠ ""
  | .int n => n ≠ 0
  | .null => false

def charDigit : Char → Option Nat := fun c =>
  if c = '0' then some 0 else if c = '1' then some 1 else if c = '2' then some 2
  else if c = '3' then some 3 else if c = '4' then some 4 else if c = '5' then some 5
  else if c = '6' then some 6 else if c = '7' then some 7 else if c = '8' then some 8
  else if c = '9' then some 9 else none

def digitsVal (cs : List Char) : Option Nat :=
  if cs = [] then none
  else cs.foldl
    (fun acc c =>
      match acc, charDigit c with
      | some a, some d => some (a * 10 + d)
      | _, _ => none)
    (some 0)

/-- Python `int(s)` on a string: optional sign followed by decimal digits;
anything else raises `ValueError` (`none` here). -/
def pyIntOfStr (s : String) : Option Int :=
  match s.data with
  | '-' :: rest => (digitsVal rest).map (fun n => -(n : Int))
  | '+' :: rest => (digitsVal rest).map (fun n => (n : Int))
  | cs => (digitsVal cs).map (fun n => (n : Int))

/-- Python `int(v)`: succeeds on ints and integer-shaped strings, raises
(`None` here) on `None` and non-numeric strings. -/
def pyInt : PyVal → Option Int
  | .int n => some n
  | .str s => pyIntOfStr s
  | .null => none

/-! ## Embedding of `download_to_file` (pillar.py lines 198-295)

The loaded sidecar is reduced to the three case-insensitively looked-up keys
the code reads (`Content-Length`, `Last-Modified`, `ETag`); a `none` field
models an absent key (Python `KeyError` on subscript). -/

structure HeaderDict where
  contentLength : Option PyVal
  lastModified : Option PyVal
  etag : Option PyVal
deriving DecidableEq

/-- State of the validator sidecar file on disk: absent, present but
unreadable / not valid JSON, or parsed JSON contents. -/
inductive Sidecar where
  | absent
  | unreadable
  | json (d : HeaderDict)
deriving DecidableEq

def Sidecar.onDisk : Sidecar → Bool
  | .absent => false
  | _ => true

/-- The HTTP response the server gives to the single GET that
`download_to_file` performs: status code, the three cached response headers,
and the number of body chunks `iter_content` yields. -/
structure Resp where
  status : Nat
  etag : Option String
  lastModified : Option String
  contentLength : Option String
  nChunks : Nat
deriving DecidableEq

/-- Environment of one `download_to_file(url, filename, header_store)` call:
the relevant filesystem state, the session-wide `_downloaded_urls` set and
the server's response. -/
structure DlEnv where
  url : String
  fileExists : Bool
  fileSize : Int
  sidecar : Sidecar
  downloadedUrls : List String
  resp : Resp

/-- The shared cancellation token, reduced to its observations: the token
reads as set from the `cancelFrom`-th observation on (a cancelled
`asyncio.Future` never reverts, so observations are monotone). -/
def cancelledAt (cancelFrom : Option Nat) (k : Nat) : Bool :=
  match cancelFrom with
  | none => false
  | some m => decide (m ≤ k)

/-- Observable side effects of `download_to_file`, in program order. -/
inductive DlEv where
  | getRequest (ims inm : Option PyVal)
  | openDest
  | writeChunk (i : Nat)
  | writeSidecar (etag : String) (lastModified : Option String)
      (contentLength : Option String)
deriving DecidableEq

inductive DlResult where
  | earlyReturn
  | notModified
  | success
  | cancelled
  | httpError (status : Nat)
deriving DecidableEq

def emptyHeaders : HeaderDict := ⟨none, none, none⟩

/-- pillar.py lines 204-226: load the cached headers.  Returns the effective
`stored_headers` dict and whether the intra-session dedup short-circuit
(`return` at line 220) fires.  The `except Exception` swallows the
`KeyError`/`ValueError` from `int(stored_headers['Content-Length'])`, at
which point `stored_headers` has already been assigned the parsed dict. -/
def loadCache (e : DlEnv) : HeaderDict × Bool :=
  if e.fileExists && e.sidecar.onDisk then
    match e.sidecar with
    | .json d =>
      match d.contentLength with
      | some v =>
        match pyInt v with
        | some n =>
          if n = e.fileSize then (d, e.downloadedUrls.contains e.url)
          else (emptyHeaders, false)
        | none => (d, false)
      | none => (d, false)
    | _ => (emptyHeaders, false)
  else (emptyHeaders, false)

/-- pillar.py lines 234-244: a conditional header is sent only when the
stored key exists and its value is truthy. -/
def headerIfTruthy : Option PyVal → Option PyVal
  | some v => if truthy v then some v else none
  | none => none

/-- The `(If-Modified-Since, If-None-Match)` pair built by
`perform_get_request`. -/
def condHeaders (h : HeaderDict) : Option PyVal × Option PyVal :=
  (headerIfTruthy h.lastModified, headerIfTruthy h.etag)

/-- pillar.py lines 253-259 (`download_loop`): write chunk `i`, re-checking
the cancellation token once per chunk before the write.  Returns whether the
body completed, the write events, and the next observation index. -/
def chunkLoop (cf : Option Nat) : Nat → Nat → Nat → Bool × List DlEv × Nat
  | k, _, 0 => (true, [], k)
  | k, i, r + 1 =>
    if cancelledAt cf k then (false, [], k + 1)
    else
      ((chunkLoop cf (k + 1) (i + 1) r).1,
        .writeChunk i :: (chunkLoop cf (k + 1) (i + 1) r).2.1,
        (chunkLoop cf (k + 1) (i + 1) r).2.2)

/-- pillar.py lines 198-295, `download_to_file`, with `k0` the index of its
first cancellation observation.  Checkpoints in execution order: line 262
(pre-GET), line 246 (inside `perform_get_request`), line 278 (post-headers,
pre-body), then one per chunk (line 257).  Returns the outcome, the effect
trace, and the next observation index. -/
def downloadToFileAux (cf : Option Nat) (k0 : Nat) (e : DlEnv) :
    DlResult × List DlEv × Nat :=
  if (loadCache e).2 then (.earlyReturn, [], k0)
  else if cancelledAt cf k0 then (.cancelled, [], k0 + 1)
  else if cancelledAt cf (k0 + 1) then (.cancelled, [], k0 + 2)
  else if 400 ≤ e.resp.status then
    (.httpError e.resp.status,
      [.getRequest (condHeaders (loadCache e).1).1
        (condHeaders (loadCache e).1).2], k0 + 2)
  else if e.resp.status = 304 then
    (.notModified,
      [.getRequest (condHeaders (loadCache e).1).1
        (condHeaders (loadCache e).1).2], k0 + 2)
  else if cancelledAt cf (k0 + 2) then
    (.cancelled,
      [.getRequest (condHeaders (loadCache e).1).1
        (condHeaders (loadCache e).1).2], k0 + 3)
  else if (chunkLoop cf (k0 + 3) 0 e.resp.nChunks).1 then
    (.success,
      .getRequest (condHeaders (loadCache e).1).1
          (condHeaders (loadCache e).1).2 ::
        .openDest :: (chunkLoop cf (k0 + 3) 0 e.resp.nChunks).2.1 ++
          [.writeSidecar (e.resp.etag.getD "") e.resp.lastModified
            e.resp.contentLength],
      (chunkLoop cf (k0 + 3) 0 e.resp.nChunks).2.2)
  else
    (.cancelled,
      .getRequest (condHeaders (loadCache e).1).1
          (condHeaders (loadCache e).1).2 ::
        .openDest :: (chunkLoop cf (k0 + 3) 0 e.resp.nChunks).2.1,
      (chunkLoop cf (k0 + 3) 0 e.resp.nChunks).2.2)

/-- One `download_to_file` call with a fresh observation counter. -/
def downloadToFile (cf : Option Nat) (e : DlEnv) : DlResult × List DlEv :=
  ((downloadToFileAux cf 0 e).1, (downloadToFileAux cf 0 e).2.1)

/-! ## Embedding of `download_texture_thumbnail` (pillar.py lines 377-427)

One batch item: a texture node together with the environment of the nested
calls (`pillarsdk.File.find` result, `fetch_thumbnail_info` result, and the
`download_to_file` environment).  Its checkpoint observations are numbered
0 (line 387), 1 (line 408), then the nested `download_to_file` observations
from 2 on. -/

structure ThumbItem where
  nodeType : String
  fileDesc : Option String
  thumbLink : Option String
  thumbPath : String
  cf : Option Nat
  dl : DlEnv

/-- Python exceptions that can escape one batch item. -/
inductive PyErr where
  | cancelledErr
  | httpErr (status : Nat)
  | valueErr
deriving DecidableEq

/-- Terminal state of one item: returned normally after reporting the
thumbnail, returned after skipping a non-texture node, returned early on a
cancellation observed at lines 387/408, or raised. -/
inductive ItemOutcome where
  | finished
  | skipped
  | returnedCancelled
  | raised (e : PyErr)
deriving DecidableEq

def isRaised : ItemOutcome → Bool
  | .raised _ => true
  | _ => false

/-- Events one item contributes to the batch trace: the `thumbnail_loading`
callback, the `thumbnail_loaded` callback with the file resource and local
path it was handed, the nested `download_to_file` effects, and a terminal
marker recording that the item's coroutine completed. -/
inductive TEv where
  | loading
  | loaded (fd : Option String) (path : Option String)
  | dl (e : DlEv)
  | done (o : ItemOutcome)
deriving DecidableEq

/-- pillar.py lines 377-427: one `download_texture_thumbnail` call.
A cancellation observed inside `download_to_file` raises `CancelledError`
through this frame (there is no try/except), while the checks at lines 387
and 408 return normally without invoking `thumbnail_loaded`. -/
def runThumb (it : ThumbItem) : ItemOutcome × List TEv :=
  if it.nodeType ≠ "texture" then (.skipped, [.done .skipped])
  else if cancelledAt it.cf 0 then (.returnedCancelled, [.done .returnedCancelled])
  else
    match it.fileDesc with
    | none => (.finished, [.loading, .loaded none none, .done .finished])
    | some fd =>
      if cancelledAt it.cf 1 then (.returnedCancelled, [.loading, .done .returnedCancelled])
      else
        match it.thumbLink with
        | none => (.raised .valueErr, [.loading, .done (.raised .valueErr)])
        | some _ =>
          match downloadToFileAux it.cf 2 it.dl with
          | (.cancelled, devs, _) =>
            (.raised .cancelledErr,
              .loading :: devs.map TEv.dl ++ [.done (.raised .cancelledErr)])
          | (.httpError s, devs, _) =>
            (.raised (.httpErr s),
              .loading :: devs.map TEv.dl ++ [.done (.raised (.httpErr s))])
          | (_, devs, _) =>
            (.finished,
              .loading :: devs.map TEv.dl ++
                [.loaded (some fd) (some it.thumbPath), .done .finished])

/-! ## Embedding of `fetch_texture_thumbs` (pillar.py lines 326-374)

The loop `for i in range(0, len(texture_nodes), chunk_size)` with
`chunk_size = 2` slices the node list into consecutive waves of two; each
wave is awaited with `asyncio.gather` before the next iteration. -/

/-- The wave partition produced by `texture_nodes[i:i + 2]` for
`i = 0, 2, 4, ...`. -/
def chunks2 : List α → List (List α)
  | [] => []
  | [a] => [[a]]
  | a :: b :: rest => [a, b] :: chunks2 rest

/-- Tag each item with its position in the node list. -/
def tagFrom : Nat → List ThumbItem → List (Nat × ThumbItem)
  | _, [] => []
  | n, x :: xs => (n, x) :: tagFrom (n + 1) xs

/-- The tagged event list one item contributes. -/
def tagRun (p : Nat × ThumbItem) : List (Nat × TEv) :=
  ((runThumb p.2).2).map (fun e => (p.1, e))

/-- Relation `Merge xs ys zs`: `zs` is an order-preserving interleaving of `xs` and
`ys` (two coroutines advanced in any order by the event loop). -/
inductive Merge : List α → List α → List α → Prop where
  | nil : Merge [] [] []
  | left {x : α} {xs ys zs} : Merge xs ys zs → Merge (x :: xs) ys (x :: zs)
  | right {y : α} {xs ys zs} : Merge xs ys zs → Merge xs (y :: ys) (y :: zs)

/-- Holds when `t` is an order-preserving interleaving of all the lists in `ls`. -/
inductive Interleaves : List (List α) → List α → Prop where
  | nil : Interleaves ([] : List (List α)) []
  | cons {xs : List α} {ls rest t} :
      Merge xs rest t → Interleaves ls rest → Interleaves (xs :: ls) t

def isPrefixL (xs ys : List α) : Prop := ∃ t, xs ++ t = ys

/-- Outcome of the whole `fetch_texture_thumbs` call: returned normally, or
re-raised an exception out of `asyncio.gather`. -/
inductive BatchOutcome where
  | finished
  | raised (e : PyErr)
deriving DecidableEq

/-- The wave loop of `fetch_texture_thumbs`: waves run strictly one after
the other (`await asyncio.gather` returns only once every coroutine of the
wave has terminated); within a wave the items' event lists interleave
arbitrarily.  If an item raises, `gather` re-raises: the batch terminates
with that exception after the offending wave (whose items may have been
interrupted mid-trace — hence prefixes), and no later wave runs. -/
inductive BatchRun :
    List (List (Nat × ThumbItem)) → List (Nat × TEv) → BatchOutcome → Prop where
  | nil : BatchRun [] [] .finished
  | waveOk {w ws t tr o} :
      (∀ p ∈ w, isRaised (runThumb p.2).1 = false) →
      Interleaves (w.map tagRun) t →
      BatchRun ws tr o →
      BatchRun (w :: ws) (t ++ tr) o
  | waveRaise {w ws t ps p err} :
      p ∈ w →
      (runThumb p.2).1 = .raised err →
      List.Forall₂ isPrefixL ps (w.map tagRun) →
      Interleaves ps t →
      BatchRun (w :: ws) t (.raised err)

/-- pillar.py lines 326-374: `fetch_texture_thumbs` over a given node list.
`preCancelled` is the check at line 351: when the token is already set the
function returns normally with an empty trace. -/
def FetchRun (preCancelled : Bool) (items : List ThumbItem)
    (tr : List (Nat × TEv)) (o : BatchOutcome) : Prop :=
  if preCancelled then tr = [] ∧ o = .finished
  else BatchRun (chunks2 (tagFrom 0 items)) tr o

/-! ## Embedding of `async_loop.py`

Tasks are modelled by their scheduler-visible state: an exception raised
inside a task is captured by the asyncio task wrapper in the task's result
slot (`doneErr`), which is exactly how `kick_async_loop` can only meet it by
calling `task.result()`. -/

inductive TaskState where
  | pending
  | doneOk
  | doneCancelled
  | doneErr (msg : String)
deriving DecidableEq

def TaskState.isDone : TaskState → Bool
  | .pending => false
  | _ => true

inductive PyExn where
  | cancelled
  | exn (msg : String)
  | invalidState
deriving DecidableEq

/-- Python `task.result()`: returns the value, or re-raises what the task captured
(`CancelledError` for a cancelled task, `InvalidStateError` when not done). -/
def taskResult : TaskState → Except PyExn Unit
  | .pending => .error .invalidState
  | .doneOk => .ok ()
  | .doneCancelled => .error .cancelled
  | .doneErr m => .error (.exn m)

/-- The list `bpy.app.handlers.scene_update_pre` is a list of handlers; the code
identifies its own handler by `__name__`, so a handler is its name here. -/
structure LoopState where
  loopClosed : Bool
  tasks : List TaskState
  handlers : List String
deriving DecidableEq

def kickName : String := "kick_async_loop"

/-- async_loop.py lines 45-50: find the registered handler by name. -/
def asyncLoopHandler (hs : List String) : Option String :=
  hs.find? (fun h => h == kickName)

/-- async_loop.py lines 59-63: removing an absent handler is a no-op;
`list.remove` drops the first occurrence. -/
def stopAsyncLoop (hs : List String) : List String :=
  match asyncLoopHandler hs with
  | none => hs
  | some h => hs.erase h

/-- async_loop.py lines 53-56: append the handler only when absent. -/
def ensureAsyncLoop (hs : List String) : List String :=
  match asyncLoopHandler hs with
  | some _ => hs
  | none => hs ++ [kickName]

/-- Observable actions of one `kick_async_loop` call. -/
inductive KickEv where
  | resultRead (i : Nat)
  | logException (i : Nat) (e : PyExn)
  | stopped
  | tick
deriving DecidableEq

/-- async_loop.py lines 25-34: read every task's result slot exactly once;
`except asyncio.CancelledError: pass`, `except Exception:` log and discard. -/
def reapFrom : Nat → List TaskState → List KickEv
  | _, [] => []
  | i, t :: ts =>
    (KickEv.resultRead i ::
      match taskResult t with
      | .ok _ => []
      | .error .cancelled => []
      | .error e => [KickEv.logException i e]) ++ reapFrom (i + 1) ts

/-- async_loop.py lines 9-42, `kick_async_loop`.  `step` is the effect of
`loop.run_until_complete(do_nothing())` on the task states: one bounded
event-loop pass, which cannot raise into this frame (task exceptions are
captured in the tasks' result slots). -/
def kick (step : List TaskState → List TaskState) (s : LoopState) :
    Except PyExn (LoopState × List KickEv) :=
  if s.loopClosed then
    .ok ({ s with handlers := stopAsyncLoop s.handlers }, [.stopped])
  else if s.tasks.isEmpty then
    .ok ({ s with handlers := stopAsyncLoop s.handlers }, [.stopped])
  else if s.tasks.all TaskState.isDone then
    .ok ({ s with handlers := stopAsyncLoop s.handlers },
      reapFrom 0 s.tasks ++ [.stopped])
  else .ok ({ s with tasks := step s.tasks }, [.tick])

/-- The state after one `kick_async_loop` call. -/
def kickStep (step : List TaskState → List TaskState) (s : LoopState) : LoopState :=
  match kick step s with
  | .ok r => r.1
  | .error _ => s

/-- Runs `n` successive per-frame invocations. -/
def kickIter (step : List TaskState → List TaskState) : Nat → LoopState → LoopState
  | 0, s => s
  | n + 1, s => kickIter step n (kickStep step s)

/-! ## Embedding of `flamenco/sdk.py` (`Manager._sorted_path_replacements`
and `Manager.replace_path`)

`path_replacement` is an insertion-ordered mapping from variable name to a
per-platform mapping from platform name to concrete path; a `PurePath` is
modelled by its `parts` list.  Python comparisons that can raise
`TypeError` live in `Except Unit`. -/

abbrev PlatformDict := List (String × String)

/-- Python `dict.__eq__`: same keys with equal values. -/
def pyDictEq (d1 d2 : PlatformDict) : Bool :=
  d1.all (fun kv => d2.lookup kv.1 == some kv.2) &&
  d2.all (fun kv => d1.lookup kv.1 == some kv.2)

/-- Comparison `key(a) < key(b)` for the sort key `by_length(item) = (-len(item[1]),
item[1])` of `_sorted_path_replacements`: the first components are the
negated numbers of platform entries; on a tie Python compares the two
per-platform dicts, which `dict` only supports for equality — `<` on
distinct dicts raises `TypeError`. -/
def byLengthLt (a b : String × PlatformDict) : Except Unit Bool :=
  if a.2.length ≠ b.2.length then .ok (decide (b.2.length < a.2.length))
  else if pyDictEq a.2 b.2 then .ok false
  else .error ()

/-- Stable insertion into a sorted list, propagating a raising comparison. -/
def insertE (lt : α → α → Except Unit Bool) (x : α) :
    List α → Except Unit (List α)
  | [] => .ok [x]
  | y :: ys => do
    let b ← lt x y
    if b then .ok (x :: y :: ys)
    else do
      let rest ← insertE lt x ys
      .ok (y :: rest)

/-- Python `sorted(...)`: a stable comparison sort; it raises exactly when a
performed element comparison raises. -/
def sortE (lt : α → α → Except Unit Bool) : List α → Except Unit (List α)
  | [] => .ok []
  | x :: xs => do
    let rest ← sortE lt xs
    insertE lt x rest

/-- sdk.py lines 12-27, `Manager._sorted_path_replacements`. -/
def sortedPathReplacements (pathReplacement : Option (List (String × PlatformDict)))
    (thisPlatform : String) : Except Unit (List (String × String)) :=
  match pathReplacement with
  | none => .ok []
  | some items => do
    let sorted ← sortE byLengthLt items
    .ok (sorted.filterMap fun kv =>
      (kv.2.lookup thisPlatform).map (fun p => (kv.1, p)))

def splitComps : List Char → List Char → List (List Char)
  | [], cur => [cur.reverse]
  | c :: rest, cur =>
    if c = '/' then cur.reverse :: splitComps rest [] else splitComps rest (c :: cur)

/-- Python `PurePosixPath(s).parts`: a root part `/` when absolute, then the
non-empty components. -/
def pathParts (s : String) : List String :=
  let comps := ((splitComps s.data []).map (fun cs => String.mk cs)).filter
    (fun c => c ≠ "")
  match s.data with
  | '/' :: _ => "/" :: comps
  | _ => comps

/-- Python `self.relative_to(other)`: the leftover parts when `other.parts` is a
prefix of `self.parts`, otherwise `ValueError` (`none`). -/
def relativeTo (selfParts otherParts : List String) : Option (List String) :=
  if otherParts.isPrefixOf selfParts then some (selfParts.drop otherParts.length)
  else none

/-- Python `as_posix()` from a parts list. -/
def joinParts : List String → String
  | [] => "."
  | "/" :: rest => "/" ++ String.intercalate "/" rest
  | parts => String.intercalate "/" parts

/-- sdk.py lines 38-49: the replacement loop of `replace_path`; the first
variable whose concrete path is a parts-prefix wins, else the input is
returned slash-normalized. -/
def replacePathLoop (someParts : List String) : List (String × String) → String
  | [] => joinParts someParts
  | (varname, path) :: rest =>
    match relativeTo someParts (pathParts path) with
    | none => replacePathLoop someParts rest
    | some rel => joinParts (("\x7b" ++ varname ++ "\x7d") :: rel)

/-- sdk.py lines 29-49, `Manager.replace_path` on a `PurePosixPath` given as
its parts. -/
def replacePath (pathReplacement : Option (List (String × PlatformDict)))
    (thisPlatform : String) (someParts : List String) : Except Unit String := do
  let reps ← sortedPathReplacements pathReplacement thisPlatform
  .ok (replacePathLoop someParts reps)

/-- The `path_replacement` mapping of the manager built in
`tests/test_path_replacement.py` `setUp` (insertion order of the dict
literal). -/
def testPathReplacement : List (String × PlatformDict) :=
  [("job_storage",
     [("darwin", "/Volume/shared"), ("linux", "/shared"), ("windows", "s:/")]),
   ("render",
     [("darwin", "/Volume/render/"), ("linux", "/render/"), ("windows", "r:/")]),
   ("longrender",
     [("darwin", "/Volume/render/long"), ("linux", "/render/long"),
      ("windows", "r:/long")])]

/-! ## Trace lemmas for the batch semantics -/

theorem Merge.subset_left {xs ys zs : List α} (h : Merge xs ys zs) :
    ∀ a ∈ xs, a ∈ zs := by
  induction h with
  | nil => intro a ha; cases ha
  | left _ ih =>
    intro a ha
    rcases List.mem_cons.1 ha with rfl | ha
    · exact List.mem_cons_self _ _
    · exact List.mem_cons_of_mem _ (ih a ha)
  | right _ ih => intro a ha; exact List.mem_cons_of_mem _ (ih a ha)

theorem Merge.subset_right {xs ys zs : List α} (h : Merge xs ys zs) :
    ∀ a ∈ ys, a ∈ zs := by
  induction h with
  | nil => intro a ha; cases ha
  | left _ ih => intro a ha; exact List.mem_cons_of_mem _ (ih a ha)
  | right _ ih =>
    intro a ha
    rcases List.mem_cons.1 ha with rfl | ha
    · exact List.mem_cons_self _ _
    · exact List.mem_cons_of_mem _ (ih a ha)

theorem Merge.mem_split {xs ys zs : List α} (h : Merge xs ys zs) :
    ∀ a ∈ zs, a ∈ xs ∨ a ∈ ys := by
  induction h with
  | nil => intro a ha; cases ha
  | left _ ih =>
    intro a ha
    rcases List.mem_cons.1 ha with rfl | ha
    · exact Or.inl (List.mem_cons_self _ _)
    · rcases ih a ha with h1 | h2
      · exact Or.inl (List.mem_cons_of_mem _ h1)
      · exact Or.inr h2
  | right _ ih =>
    intro a ha
    rcases List.mem_cons.1 ha with rfl | ha
    · exact Or.inr (List.mem_cons_self _ _)
    · rcases ih a ha with h1 | h2
      · exact Or.inl h1
      · exact Or.inr (List.mem_cons_of_mem _ h2)

theorem Interleaves.src_of_mem {ls : List (List α)} {t : List α}
    (h : Interleaves ls t) : ∀ a ∈ t, ∃ l ∈ ls, a ∈ l := by
  induction h with
  | nil => intro a ha; cases ha
  | cons hm _ ih =>
    intro a ha
    rcases hm.mem_split a ha with h1 | h2
    · exact ⟨_, List.mem_cons_self _ _, h1⟩
    · rcases ih a h2 with ⟨l, hl, hal⟩
      exact ⟨l, List.mem_cons_of_mem _ hl, hal⟩

theorem Interleaves.mem_intro {ls : List (List α)} {t : List α}
    (h : Interleaves ls t) : ∀ l ∈ ls, ∀ a ∈ l, a ∈ t := by
  induction h with
  | nil => intro l hl; cases hl
  | cons hm _ ih =>
    intro l hl a ha
    rcases List.mem_cons.1 hl with rfl | hl
    · exact hm.subset_left a ha
    · exact hm.subset_right a (ih l hl a ha)

theorem Merge.append (xs ys : List α) : Merge xs ys (xs ++ ys) := by
  induction xs with
  | nil =>
    induction ys with
    | nil => exact .nil
    | cons y ys ih => exact .right ih
  | cons x xs ih => exact .left ih

theorem Interleaves.single (l : List α) : Interleaves [l] l :=
  .cons (by simpa using Merge.append l []) .nil

theorem Interleaves.pair (a b : List α) : Interleaves [a, b] (a ++ b) :=
  .cons (Merge.append a b) (Interleaves.single b)

theorem isPrefixL.refl (l : List α) : isPrefixL l l := ⟨[], List.append_nil l⟩

theorem isPrefixL.subset {xs ys : List α} (h : isPrefixL xs ys) :
    ∀ a ∈ xs, a ∈ ys := by
  rcases h with ⟨t, rfl⟩
  intro a ha
  exact List.mem_append_left _ ha

theorem forall2_mem_left {R : α → β → Prop} {ps : List α} {qs : List β}
    (h : List.Forall₂ R ps qs) : ∀ x ∈ ps, ∃ y ∈ qs, R x y := by
  induction h with
  | nil => intro x hx; cases hx
  | cons hr _ ih =>
    intro x hx
    rcases List.mem_cons.1 hx with rfl | hx
    · exact ⟨_, List.mem_cons_self _ _, hr⟩
    · rcases ih x hx with ⟨y, hy, hxy⟩
      exact ⟨y, List.mem_cons_of_mem _ hy, hxy⟩

theorem cons_append_last (xs : List TEv) (d : TEv) :
    TEv.loading :: xs ++ [d] = (TEv.loading :: xs) ++ [d] := by simp

theorem cons_append_loaded_last (xs : List TEv) (a : Option String)
    (b : Option String) :
    TEv.loading :: xs ++ [TEv.loaded a b, TEv.done ItemOutcome.finished] =
      (TEv.loading :: xs ++ [TEv.loaded a b]) ++ [TEv.done ItemOutcome.finished] := by
  simp

/-- Every item's event list terminates with the `done` marker of its
outcome: the coroutine's terminal state is the last thing the wave sees. -/
theorem runThumb_ends (it : ThumbItem) :
    ∃ l, (runThumb it).2 = l ++ [TEv.done (runThumb it).1] := by
  unfold runThumb
  split
  · exact ⟨[], rfl⟩
  · split
    · exact ⟨[], rfl⟩
    · split
      · exact ⟨[TEv.loading, TEv.loaded none none], rfl⟩
      · split
        · exact ⟨[TEv.loading], rfl⟩
        · split
          · exact ⟨[TEv.loading], rfl⟩
          · split <;>
              first
                | exact ⟨_, cons_append_last _ _⟩
                | exact ⟨_, cons_append_loaded_last _ _ _⟩

theorem done_mem_runThumb (it : ThumbItem) :
    TEv.done (runThumb it).1 ∈ (runThumb it).2 := by
  rcases runThumb_ends it with ⟨l, hl⟩
  rw [hl]
  simp

theorem tagRun_fst {p : Nat × ThumbItem} {x : Nat × TEv} (h : x ∈ tagRun p) :
    x.1 = p.1 := by
  rcases List.mem_map.1 h with ⟨e, _, rfl⟩
  rfl

theorem done_mem_tagRun (p : Nat × ThumbItem) :
    (p.1, TEv.done (runThumb p.2).1) ∈ tagRun p :=
  List.mem_map_of_mem _ (done_mem_runThumb p.2)

theorem interleaves_tags {w : List (Nat × ThumbItem)} {t : List (Nat × TEv)}
    (h : Interleaves (w.map tagRun) t) :
    ∀ x ∈ t, x.1 ∈ w.map Prod.fst := by
  intro x hx
  rcases h.src_of_mem x hx with ⟨l, hl, hxl⟩
  rcases List.mem_map.1 hl with ⟨p, hp, rfl⟩
  rw [tagRun_fst hxl]
  exact List.mem_map_of_mem _ hp

theorem prefix_interleaves_tags {w : List (Nat × ThumbItem)}
    {ps : List (List (Nat × TEv))} {t : List (Nat × TEv)}
    (hf : List.Forall₂ isPrefixL ps (w.map tagRun))
    (h : Interleaves ps t) :
    ∀ x ∈ t, x.1 ∈ w.map Prod.fst := by
  intro x hx
  rcases h.src_of_mem x hx with ⟨l, hl, hxl⟩
  rcases forall2_mem_left hf l hl with ⟨full, hfull, hpre⟩
  rcases List.mem_map.1 hfull with ⟨p, hp, rfl⟩
  rw [tagRun_fst (hpre.subset x hxl)]
  exact List.mem_map_of_mem _ hp

/-- Core ordering property of the wave loop: whenever waves have pairwise
distinct item indices, any event of an item of a later wave appears in the
batch trace strictly after the terminal `done` event of every item of every
earlier wave. -/
theorem batchRun_order {ws : List (List (Nat × ThumbItem))}
    {tr : List (Nat × TEv)} {o : BatchOutcome} (h : BatchRun ws tr o) :
    (ws.flatten.map Prod.fst).Nodup →
    ∀ wi wj wvi wvj i iti j itj q e,
      ws.get? wi = some wvi → ws.get? wj = some wvj → wi < wj →
      (i, iti) ∈ wvi → (j, itj) ∈ wvj → tr.get? q = some (j, e) →
      ∃ p o2, p < q ∧ tr.get? p = some (i, TEv.done o2) := by
  induction h with
  | nil =>
    intro _ wi wj wvi wvj i iti j itj q e hwi _ _ _ _ _
    simp at hwi
  | waveOk hnr hint hrest ih =>
    rename_i w ws' t tr' o'
    intro hnd wi wj wvi wvj i iti j itj q e hwi hwj hlt hmi hmj hq
    have hnd' : (w.map Prod.fst ++ ws'.flatten.map Prod.fst).Nodup := by
      simpa using hnd
    rw [List.nodup_append] at hnd'
    obtain ⟨_, hndr, hdisj⟩ := hnd'
    cases wj with
    | zero => omega
    | succ wj' =>
      have hwj' : ws'.get? wj' = some wvj := by simpa using hwj
      have hjmem : j ∈ ws'.flatten.map Prod.fst := by
        refine List.mem_map.2 ⟨(j, itj), ?_, rfl⟩
        exact List.mem_flatten.2 ⟨wvj, List.get?_mem hwj', hmj⟩
      have hjnotw : j ∉ w.map Prod.fst := fun hc => hdisj hc hjmem
      have hjt : (j, e) ∉ t := fun hc => hjnotw (interleaves_tags hint _ hc)
      have hqt : t.length ≤ q := by
        by_contra hq'
        push_neg at hq'
        rw [List.get?_append hq'] at hq
        exact hjt (List.get?_mem hq)
      cases wi with
      | zero =>
        have hwvi : w = wvi := by simpa using hwi
        subst hwvi
        have hdone : ((i, iti).1, TEv.done (runThumb (i, iti).2).1) ∈ t :=
          hint.mem_intro _ (List.mem_map_of_mem tagRun hmi) _
            (done_mem_tagRun (i, iti))
        rcases List.mem_iff_get?.1 hdone with ⟨p, hp⟩
        have hplen : p < t.length := by
          by_contra hc
          push_neg at hc
          rw [List.get?_eq_none.2 hc] at hp
          cases hp
        refine ⟨p, (runThumb iti).1, lt_of_lt_of_le hplen hqt, ?_⟩
        rw [List.get?_append hplen]
        exact hp
      | succ wi' =>
        have hwi' : ws'.get? wi' = some wvi := by simpa using hwi
        have hq2 : tr'.get? (q - t.length) = some (j, e) := by
          rw [List.get?_append_right hqt] at hq
          exact hq
        rcases ih hndr wi' wj' wvi wvj i iti j itj (q - t.length) e hwi' hwj'
          (by omega) hmi hmj hq2 with ⟨p, o2, hplt, hpget⟩
        refine ⟨t.length + p, o2, by omega, ?_⟩
        rw [List.get?_append_right (by omega)]
        simpa using hpget
  | waveRaise hpmem hraised hf hint =>
    rename_i w ws' t ps p err
    intro hnd wi wj wvi wvj i iti j itj q e hwi hwj hlt hmi hmj hq
    have hnd' : (w.map Prod.fst ++ ws'.flatten.map Prod.fst).Nodup := by
      simpa using hnd
    rw [List.nodup_append] at hnd'
    obtain ⟨_, _, hdisj⟩ := hnd'
    cases wj with
    | zero => omega
    | succ wj' =>
      have hwj' : ws'.get? wj' = some wvj := by simpa using hwj
      have hjmem : j ∈ ws'.flatten.map Prod.fst := by
        refine List.mem_map.2 ⟨(j, itj), ?_, rfl⟩
        exact List.mem_flatten.2 ⟨wvj, List.get?_mem hwj', hmj⟩
      have hjw : (j, e).1 ∈ w.map Prod.fst :=
        prefix_interleaves_tags hf hint _ (List.get?_mem hq)
      exact absurd hjmem (hdisj hjw)

theorem chunks2_flatten : ∀ (l : List α), (chunks2 l).flatten = l
  | [] => by simp [chunks2]
  | [a] => by simp [chunks2]
  | a :: b :: rest => by simp [chunks2, chunks2_flatten rest]

theorem chunks2_shape : ∀ (l : List α), ∀ c ∈ chunks2 l, c ≠ [] ∧ c.length ≤ 2
  | [] => by simp [chunks2]
  | [a] => by simp [chunks2]
  | a :: b :: rest => by
    intro c hc
    simp only [chunks2, List.mem_cons] at hc
    rcases hc with rfl | hc
    · simp
    · exact chunks2_shape rest c hc

theorem tagFrom_fst_ge :
    ∀ (n : Nat) (l : List ThumbItem), ∀ x ∈ tagFrom n l, n ≤ x.1
  | _, [] => by simp [tagFrom]
  | n, a :: l => by
    intro x hx
    simp only [tagFrom, List.mem_cons] at hx
    rcases hx with rfl | hx
    · exact le_refl n
    · exact Nat.le_of_succ_le (tagFrom_fst_ge (n + 1) l x hx)

theorem tagFrom_fst_nodup :
    ∀ (n : Nat) (l : List ThumbItem), ((tagFrom n l).map Prod.fst).Nodup
  | _, [] => by simp [tagFrom]
  | n, a :: l => by
    simp only [tagFrom, List.map_cons, List.nodup_cons]
    refine ⟨?_, tagFrom_fst_nodup (n + 1) l⟩
    intro hmem
    rcases List.mem_map.1 hmem with ⟨x, hx, hfst⟩
    have := tagFrom_fst_ge (n + 1) l x hx
    omega

/-- C4.  `fetch_texture_thumbs` slices the node list into consecutive waves
of size 2 (`texture_nodes[i:i+2]` for `i = 0, 2, ...`: a partition into
nonempty chunks of at most 2, and exactly sizes 2, 2, 1 for 5 items), and in
every possible trace any event of an item of a later wave occurs strictly
after the terminal (`done`) event of every item of every earlier wave. -/
theorem fetch_texture_thumbs_waves (items : List ThumbItem) :
    ((chunks2 (tagFrom 0 items)).flatten = tagFrom 0 items ∧
      ∀ c ∈ chunks2 (tagFrom 0 items), c ≠ [] ∧ c.length ≤ 2) ∧
    (items.length = 5 →
      (chunks2 (tagFrom 0 items)).map List.length = [2, 2, 1]) ∧
    (∀ pre tr o, FetchRun pre items tr o →
      ∀ wi wj wvi wvj i iti j itj q e,
        (chunks2 (tagFrom 0 items)).get? wi = some wvi →
        (chunks2 (tagFrom 0 items)).get? wj = some wvj →
        wi < wj → (i, iti) ∈ wvi → (j, itj) ∈ wvj →
        tr.get? q = some (j, e) →
        ∃ p o2, p < q ∧ tr.get? p = some (i, TEv.done o2)) := by
  refine ⟨⟨chunks2_flatten _, chunks2_shape _⟩, ?_, ?_⟩
  · intro h5
    rcases items with _ | ⟨a, _ | ⟨b, _ | ⟨c, _ | ⟨d, _ | ⟨e, _ | ⟨f, rest⟩⟩⟩⟩⟩⟩ <;>
      simp_all [tagFrom, chunks2]
  · intro pre tr o hrun
    cases pre with
    | true =>
      rcases hrun with ⟨rfl, _⟩
      intro _ _ _ _ _ _ _ _ q _ _ _ _ _ _ hq
      simp at hq
    | false =>
      have hb : BatchRun (chunks2 (tagFrom 0 items)) tr o := hrun
      have hnd : ((chunks2 (tagFrom 0 items)).flatten.map Prod.fst).Nodup := by
        rw [chunks2_flatten]
        exact tagFrom_fst_nodup 0 items
      exact fun wi wj wvi wvj i iti j itj q e hwi hwj hlt hmi hmj hq =>
        batchRun_order hb hnd wi wj wvi wvj i iti j itj q e hwi hwj hlt hmi hmj hq

/-- A non-texture node: its item coroutine returns immediately
(pillar.py line 384). -/
def nonTex : ThumbItem :=
  { nodeType := "group_texture", fileDesc := none, thumbLink := none,
    thumbPath := "", cf := none,
    dl := { url := "", fileExists := false, fileSize := 0, sidecar := .absent,
            downloadedUrls := [], resp := ⟨200, none, none, none, 0⟩ } }

def items5 : List ThumbItem := [nonTex, nonTex, nonTex, nonTex, nonTex]

def trace5 : List (Nat × TEv) :=
  (tagRun (0, nonTex) ++ tagRun (1, nonTex)) ++
    ((tagRun (2, nonTex) ++ tagRun (3, nonTex)) ++ (tagRun (4, nonTex) ++ []))

theorem fetch_texture_thumbs_waves_witness :
    ∃ p o2, p < 2 ∧ trace5.get? p = some (0, TEv.done o2) := by
  have h3 : BatchRun [[(4, nonTex)]] (tagRun (4, nonTex) ++ []) .finished := by
    refine .waveOk ?_ (Interleaves.single _) .nil
    intro p hp
    simp only [List.mem_singleton] at hp
    subst hp
    rfl
  have h2 : BatchRun [[(2, nonTex), (3, nonTex)], [(4, nonTex)]]
      ((tagRun (2, nonTex) ++ tagRun (3, nonTex)) ++ (tagRun (4, nonTex) ++ []))
      .finished := by
    refine .waveOk ?_ (Interleaves.pair _ _) h3
    intro p hp
    rcases List.mem_cons.1 hp with rfl | hp
    · rfl
    · simp only [List.mem_singleton] at hp
      subst hp
      rfl
  have h1 : FetchRun false items5 trace5 .finished := by
    show BatchRun
      [[(0, nonTex), (1, nonTex)], [(2, nonTex), (3, nonTex)], [(4, nonTex)]]
      trace5 .finished
    refine .waveOk ?_ (Interleaves.pair _ _) h2
    intro p hp
    rcases List.mem_cons.1 hp with rfl | hp
    · rfl
    · simp only [List.mem_singleton] at hp
      subst hp
      rfl
  exact (fetch_texture_thumbs_waves items5).2.2 false trace5 .finished h1
    0 1 [(0, nonTex), (1, nonTex)] [(2, nonTex), (3, nonTex)] 0 nonTex 2 nonTex
    2 (TEv.done .skipped) rfl rfl (by omega) (List.mem_cons_self _ _)
    (List.mem_cons_self _ _) rfl

/-- C6.  For an item whose metadata lookup (`pillarsdk.File.find` on the
node's picture) yields no file resource, `download_texture_thumbnail` does
not raise: it reports the item to `thumbnail_loaded` with a null resource
and a null path and completes normally, so the enclosing batch continues
(only a raising item aborts a wave). -/
theorem download_texture_thumbnail_missing_file (it : ThumbItem)
    (htex : it.nodeType = "texture") (hc : cancelledAt it.cf 0 = false)
    (hfd : it.fileDesc = none) :
    runThumb it =
      (.finished, [TEv.loading, TEv.loaded none none, TEv.done .finished]) ∧
    isRaised (runThumb it).1 = false := by
  have h : runThumb it =
      (.finished, [TEv.loading, TEv.loaded none none, TEv.done .finished]) := by
    unfold runThumb
    simp [htex, hc, hfd]
  exact ⟨h, by rw [h]; rfl⟩

def missingItem : ThumbItem := { nonTex with nodeType := "texture" }

theorem download_texture_thumbnail_missing_file_witness :
    runThumb missingItem =
      (.finished, [TEv.loading, TEv.loaded none none, TEv.done .finished]) ∧
    isRaised (runThumb missingItem).1 = false :=
  download_texture_thumbnail_missing_file missingItem rfl rfl rfl

/-! ## The cancellation scenario of C5: a 4-item batch with the shared token
set between wave 1 and wave 2.  Wave-1 items run to completion (a 304 answer
reusing the cache); wave-2 items observe the token at their first checkpoint
(pillar.py line 387) and return without doing anything. -/

def okThumb : ThumbItem :=
  { nodeType := "texture", fileDesc := some "fd", thumbLink := some "turl",
    thumbPath := "tpath", cf := none,
    dl := { url := "turl", fileExists := true, fileSize := 3,
            sidecar := .json ⟨some (.str "3"), none, some (.str "etag1")⟩,
            downloadedUrls := [], resp := ⟨304, none, none, none, 0⟩ } }

def cancelledThumb : ThumbItem := { okThumb with cf := some 0 }

def scenario4 : List ThumbItem :=
  [okThumb, okThumb, cancelledThumb, cancelledThumb]

theorem runThumb_okThumb :
    runThumb okThumb =
      (.finished, [TEv.loading, TEv.dl (DlEv.getRequest none (some (.str "etag1"))),
        TEv.loaded (some "fd") (some "tpath"), TEv.done .finished]) := rfl

theorem runThumb_cancelledThumb :
    runThumb cancelledThumb =
      (.returnedCancelled, [TEv.done .returnedCancelled]) := rfl

theorem tagRun_ok0 :
    tagRun (0, okThumb) =
      [(0, TEv.loading), (0, TEv.dl (DlEv.getRequest none (some (.str "etag1")))),
       (0, TEv.loaded (some "fd") (some "tpath")), (0, TEv.done .finished)] := rfl

theorem tagRun_ok1 :
    tagRun (1, okThumb) =
      [(1, TEv.loading), (1, TEv.dl (DlEv.getRequest none (some (.str "etag1")))),
       (1, TEv.loaded (some "fd") (some "tpath")), (1, TEv.done .finished)] := rfl

theorem tagRun_c2 :
    tagRun (2, cancelledThumb) = [(2, TEv.done .returnedCancelled)] := rfl

theorem tagRun_c3 :
    tagRun (3, cancelledThumb) = [(3, TEv.done .returnedCancelled)] := rfl

/-- C5 (amended).  A cancellation observed at an item's own checkpoints
(before its download starts) makes the item return normally; consequently,
when the shared token is set between wave 1 and wave 2 of a 4-item batch
with limit 2, `fetch_texture_thumbs` returns normally, `thumbnail_loaded`
fires for exactly the 2 wave-1 items, and the wave-2 items contribute
nothing but their silent termination (no callback, no request).  (A
cancellation observed inside `download_to_file` instead raises
`CancelledError` out of the batch — see the counterexample.) -/
theorem fetch_texture_thumbs_cancellation :
    (∀ it : ThumbItem, it.nodeType = "texture" → cancelledAt it.cf 0 = true →
      runThumb it = (.returnedCancelled, [TEv.done .returnedCancelled])) ∧
    ∀ tr o, FetchRun false scenario4 tr o →
      o = .finished ∧
      (∀ i fd p, (i, TEv.loaded fd p) ∈ tr ↔
        ((i = 0 ∨ i = 1) ∧ fd = some "fd" ∧ p = some "tpath")) ∧
      (∀ i e, 2 ≤ i → (i, e) ∈ tr → e = TEv.done .returnedCancelled) := by
  constructor
  · intro it htex hc
    unfold runThumb
    simp [htex, hc]
  · intro tr o hrun
    have hb : BatchRun
        [[(0, okThumb), (1, okThumb)],
         [(2, cancelledThumb), (3, cancelledThumb)]] tr o := hrun
    cases hb with
    | waveRaise hp hraised hf hint =>
      rcases List.mem_cons.1 hp with rfl | hp
      · simp [runThumb_okThumb] at hraised
      · simp only [List.mem_singleton] at hp
        subst hp
        simp [runThumb_okThumb] at hraised
    | waveOk hnr1 hint1 hrest =>
      cases hrest with
      | waveRaise hp hraised hf hint =>
        rcases List.mem_cons.1 hp with rfl | hp
        · simp [runThumb_cancelledThumb] at hraised
        · simp only [List.mem_singleton] at hp
          subst hp
          simp [runThumb_cancelledThumb] at hraised
      | waveOk hnr2 hint2 hrest2 =>
        cases hrest2 with
        | nil =>
          rename_i t1 t2
          refine ⟨rfl, ?_, ?_⟩
          · intro i fd p
            constructor
            · intro hmem
              rcases List.mem_append.1 hmem with hm | hm
              · rcases hint1.src_of_mem _ hm with ⟨l, hl, hxl⟩
                simp only [List.map_cons, List.map_nil, List.mem_cons,
                  List.not_mem_nil, or_false] at hl
                rcases hl with rfl | rfl
                · rw [tagRun_ok0] at hxl
                  simp at hxl
                  tauto
                · rw [tagRun_ok1] at hxl
                  simp at hxl
                  tauto
              · rw [List.append_nil] at hm
                rcases hint2.src_of_mem _ hm with ⟨l, hl, hxl⟩
                simp only [List.map_cons, List.map_nil, List.mem_cons,
                  List.not_mem_nil, or_false] at hl
                rcases hl with rfl | rfl
                · rw [tagRun_c2] at hxl
                  simp at hxl
                · rw [tagRun_c3] at hxl
                  simp at hxl
            · intro hcond
              obtain ⟨hi, rfl, rfl⟩ := hcond
              apply List.mem_append_left
              rcases hi with rfl | rfl
              · exact hint1.mem_intro (tagRun (0, okThumb))
                  (List.mem_map_of_mem tagRun (by simp)) _
                  (by rw [tagRun_ok0]; simp)
              · exact hint1.mem_intro (tagRun (1, okThumb))
                  (List.mem_map_of_mem tagRun (by simp)) _
                  (by rw [tagRun_ok1]; simp)
          · intro i e hi hmem
            rcases List.mem_append.1 hmem with hm | hm
            · rcases hint1.src_of_mem _ hm with ⟨l, hl, hxl⟩
              simp only [List.map_cons, List.map_nil, List.mem_cons,
                List.not_mem_nil, or_false] at hl
              rcases hl with rfl | rfl
              · have := tagRun_fst hxl
                simp at this
                omega
              · have := tagRun_fst hxl
                simp at this
                omega
            · rw [List.append_nil] at hm
              rcases hint2.src_of_mem _ hm with ⟨l, hl, hxl⟩
              simp only [List.map_cons, List.map_nil, List.mem_cons,
                List.not_mem_nil, or_false] at hl
              rcases hl with rfl | rfl
              · rw [tagRun_c2] at hxl
                simp at hxl
                exact hxl.2
              · rw [tagRun_c3] at hxl
                simp at hxl
                exact hxl.2

def scenarioTrace : List (Nat × TEv) :=
  (tagRun (0, okThumb) ++ tagRun (1, okThumb)) ++
    ((tagRun (2, cancelledThumb) ++ tagRun (3, cancelledThumb)) ++ [])

theorem fetch_texture_thumbs_cancellation_witness :
    (0, TEv.loaded (some "fd") (some "tpath")) ∈ scenarioTrace ∧
    ∀ e, (2, e) ∈ scenarioTrace → e = TEv.done .returnedCancelled := by
  have h2 : BatchRun [[(2, cancelledThumb), (3, cancelledThumb)]]
      ((tagRun (2, cancelledThumb) ++ tagRun (3, cancelledThumb)) ++ [])
      .finished := by
    refine .waveOk ?_ (Interleaves.pair _ _) .nil
    intro p hp
    rcases List.mem_cons.1 hp with rfl | hp
    · rfl
    · simp only [List.mem_singleton] at hp
      subst hp
      rfl
  have hrun : FetchRun false scenario4 scenarioTrace .finished := by
    show BatchRun
      [[(0, okThumb), (1, okThumb)], [(2, cancelledThumb), (3, cancelledThumb)]]
      scenarioTrace .finished
    refine .waveOk ?_ (Interleaves.pair _ _) h2
    intro p hp
    rcases List.mem_cons.1 hp with rfl | hp
    · rfl
    · simp only [List.mem_singleton] at hp
      subst hp
      rfl
  have key := fetch_texture_thumbs_cancellation.2 scenarioTrace .finished hrun
  exact ⟨(key.2.1 0 (some "fd") (some "tpath")).2 (by simp),
    fun e he => key.2.2 2 e (by omega) he⟩

/-- An item whose shared token is first observed set inside its
`download_to_file` call (observation 2, the pre-GET checkpoint at pillar.py
line 262): the nested fetch raises `CancelledError`, which propagates
through `download_texture_thumbnail` and `asyncio.gather`. -/
def cancelInDlThumb : ThumbItem :=
  { okThumb with cf := some 2, dl := nonTex.dl }

/-- C5, counterexample to the claim as stated: a batch in which the shared
cancellation token is observed set (at a checkpoint inside
`download_to_file`) and `fetch_texture_thumbs` nevertheless terminates by
raising `CancelledError` to its caller instead of returning normally. -/
theorem fetch_texture_thumbs_cancellation_cex :
    FetchRun false [cancelInDlThumb] (tagRun (0, cancelInDlThumb))
      (.raised .cancelledErr) ∧
    cancelledAt cancelInDlThumb.cf 2 = true ∧
    runThumb cancelInDlThumb =
      (.raised .cancelledErr, [TEv.loading, TEv.done (.raised .cancelledErr)]) := by
  refine ⟨?_, rfl, rfl⟩
  show BatchRun [[(0, cancelInDlThumb)]] (tagRun (0, cancelInDlThumb))
    (.raised .cancelledErr)
  exact .waveRaise (List.mem_singleton.2 rfl) rfl
    (List.Forall₂.cons (isPrefixL.refl _) List.Forall₂.nil)
    (Interleaves.single _)

/-! ## Cache-loading characterization (pillar.py lines 204-226) -/

theorem cancelledAt_mono {cf : Option Nat} {i j : Nat} (hij : i ≤ j)
    (hj : cancelledAt cf j = false) : cancelledAt cf i = false := by
  cases cf with
  | none => rfl
  | some m =>
    simp only [cancelledAt, decide_eq_false_iff_not] at hj ⊢
    omega

theorem loadCache_miss (e : DlEnv)
    (h : e.sidecar = .unreadable ∨ e.sidecar = .absent ∨ e.fileExists = false) :
    loadCache e = (emptyHeaders, false) := by
  unfold loadCache
  rcases h with h | h | h <;> rw [h] <;> simp [Sidecar.onDisk]

theorem loadCache_noCL (e : DlEnv) (d : HeaderDict)
    (hfile : e.fileExists = true) (hsc : e.sidecar = .json d)
    (hcl : d.contentLength = none) :
    loadCache e = (d, false) := by
  unfold loadCache
  rw [hsc, hfile]
  simp [Sidecar.onDisk, hcl]

theorem loadCache_badCL (e : DlEnv) (d : HeaderDict) (v : PyVal)
    (hfile : e.fileExists = true) (hsc : e.sidecar = .json d)
    (hcl : d.contentLength = some v) (hn : pyInt v = none) :
    loadCache e = (d, false) := by
  unfold loadCache
  rw [hsc, hfile]
  simp [Sidecar.onDisk, hcl, hn]

theorem loadCache_mismatch (e : DlEnv) (d : HeaderDict) (v : PyVal) (n : Int)
    (hfile : e.fileExists = true) (hsc : e.sidecar = .json d)
    (hcl : d.contentLength = some v) (hn : pyInt v = some n)
    (hne : n ≠ e.fileSize) :
    loadCache e = (emptyHeaders, false) := by
  unfold loadCache
  rw [hsc, hfile]
  simp [Sidecar.onDisk, hcl, hn, hne]

theorem loadCache_match_new (e : DlEnv) (d : HeaderDict) (v : PyVal) (n : Int)
    (hfile : e.fileExists = true) (hsc : e.sidecar = .json d)
    (hcl : d.contentLength = some v) (hn : pyInt v = some n)
    (heq : n = e.fileSize) (hnew : e.url ∉ e.downloadedUrls) :
    loadCache e = (d, false) := by
  unfold loadCache
  rw [hsc, hfile]
  simp [Sidecar.onDisk, hcl, hn, heq]
  simpa using hnew

/-- Whenever the intra-session dedup does not fire and the first two
checkpoints pass, `download_to_file` performs exactly one GET, whose
conditional headers come from the effective `stored_headers` dict. -/
theorem downloadToFile_get_head (cf : Option Nat) (e : DlEnv) (h : HeaderDict)
    (hload : loadCache e = (h, false)) (hc1 : cancelledAt cf 1 = false) :
    ∃ rest, (downloadToFile cf e).2 =
      DlEv.getRequest (condHeaders h).1 (condHeaders h).2 :: rest := by
  have hc0 : cancelledAt cf 0 = false := cancelledAt_mono (by omega) hc1
  unfold downloadToFile downloadToFileAux
  simp only [hload, hc0, hc1, Bool.false_eq_true, if_false]
  split
  · exact ⟨[], rfl⟩
  · split
    · exact ⟨[], rfl⟩
    · split
      · exact ⟨[], rfl⟩
      · split
        · exact ⟨_, rfl⟩
        · exact ⟨_, rfl⟩

/-! ## C1: conditional revalidation -/

/-- The state after a prior successful fetch of `"u"` in the same session:
validator persisted, file of the recorded length, URL in
`_downloaded_urls`. -/
def c1env : DlEnv :=
  { url := "u", fileExists := true, fileSize := 3,
    sidecar := .json ⟨some (.str "3"), some (.str "lm1"), some (.str "et1")⟩,
    downloadedUrls := ["u"], resp := ⟨304, none, none, none, 0⟩ }

/-- C1, counterexample to the claim as stated: with a persisted validator,
an existing destination of matching size, and the URL already fetched this
session, `download_to_file` returns at once — the trace is empty, so no GET
(conditional or otherwise) is issued. -/
theorem download_to_file_conditional_cex :
    downloadToFile none c1env = (.earlyReturn, []) ∧
    c1env.fileExists = true ∧
    c1env.sidecar =
      .json ⟨some (.str "3"), some (.str "lm1"), some (.str "et1")⟩ ∧
    pyInt (.str "3") = some c1env.fileSize ∧
    c1env.url ∈ c1env.downloadedUrls :=
  ⟨rfl, rfl, rfl, rfl, by simp [c1env]⟩

/-- C1 (amended).  When additionally the URL has not yet been downloaded
this session, the fetch issues the GET with `If-Modified-Since` /
`If-None-Match` taken from the stored validator, and a 304 answer makes it
return with that single request as its whole trace: zero writes to the
destination file. -/
theorem download_to_file_conditional (cf : Option Nat) (e : DlEnv)
    (d : HeaderDict) (v : PyVal) (n : Int) (lm et : String)
    (hfile : e.fileExists = true) (hsc : e.sidecar = .json d)
    (hcl : d.contentLength = some v) (hn : pyInt v = some n)
    (heq : n = e.fileSize) (hnew : e.url ∉ e.downloadedUrls)
    (hlm : d.lastModified = some (.str lm)) (hlmne : lm ≠ "")
    (het : d.etag = some (.str et)) (hetne : et ≠ "")
    (hc1 : cancelledAt cf 1 = false) :
    (∃ rest, (downloadToFile cf e).2 =
      DlEv.getRequest (some (.str lm)) (some (.str et)) :: rest) ∧
    (e.resp.status = 304 →
      downloadToFile cf e =
        (.notModified, [DlEv.getRequest (some (.str lm)) (some (.str et))])) := by
  have hload : loadCache e = (d, false) :=
    loadCache_match_new e d v n hfile hsc hcl hn heq hnew
  have hch : condHeaders d = (some (.str lm), some (.str et)) := by
    unfold condHeaders
    rw [hlm, het]
    simp [headerIfTruthy, truthy, hlmne, hetne]
  constructor
  · have := downloadToFile_get_head cf e d hload hc1
    rwa [hch] at this
  · intro h304
    have hc0 : cancelledAt cf 0 = false := cancelledAt_mono (by omega) hc1
    unfold downloadToFile downloadToFileAux
    simp [hload, hc0, hc1, hch, h304]

def c1okEnv : DlEnv := { c1env with downloadedUrls := [] }

theorem download_to_file_conditional_witness :
    (∃ rest, (downloadToFile none c1okEnv).2 =
      DlEv.getRequest (some (.str "lm1")) (some (.str "et1")) :: rest) ∧
    downloadToFile none c1okEnv =
      (.notModified, [DlEv.getRequest (some (.str "lm1")) (some (.str "et1"))]) := by
  have h := download_to_file_conditional none c1okEnv
    ⟨some (.str "3"), some (.str "lm1"), some (.str "et1")⟩ (.str "3") 3
    "lm1" "et1" rfl rfl rfl rfl rfl (by simp [c1okEnv, c1env]) rfl
    (by decide) rfl (by decide) rfl
  exact ⟨h.1, h.2 rfl⟩

/-! ## C2: cache invalidation on size mismatch -/

/-- C2.  When the destination file exists but its size differs from the
stored Content-Length, the stored validator is discarded and the GET goes
out with no conditional headers. -/
theorem download_to_file_size_mismatch (cf : Option Nat) (e : DlEnv)
    (d : HeaderDict) (v : PyVal) (n : Int)
    (hfile : e.fileExists = true) (hsc : e.sidecar = .json d)
    (hcl : d.contentLength = some v) (hn : pyInt v = some n)
    (hne : n ≠ e.fileSize) (hc1 : cancelledAt cf 1 = false) :
    ∃ rest, (downloadToFile cf e).2 = DlEv.getRequest none none :: rest := by
  have hload : loadCache e = (emptyHeaders, false) :=
    loadCache_mismatch e d v n hfile hsc hcl hn hne
  have := downloadToFile_get_head cf e emptyHeaders hload hc1
  simpa [condHeaders, emptyHeaders, headerIfTruthy] using this

def c2env : DlEnv := { c1env with fileSize := 5, downloadedUrls := ["u"] }

theorem download_to_file_size_mismatch_witness :
    ∃ rest, (downloadToFile none c2env).2 = DlEv.getRequest none none :: rest :=
  download_to_file_size_mismatch none c2env
    ⟨some (.str "3"), some (.str "lm1"), some (.str "et1")⟩ (.str "3") 3
    rfl rfl rfl rfl (by decide) rfl

/-! ## C3: validator write discipline -/

def isSidecarWrite : DlEv → Bool
  | .writeSidecar _ _ _ => true
  | _ => false

def isChunkWrite : DlEv → Bool
  | .writeChunk _ => true
  | _ => false

def isOpenDest : DlEv → Bool
  | .openDest => true
  | _ => false

theorem chunk_not_sidecar {ev : DlEv} (h : isChunkWrite ev = true) :
    isSidecarWrite ev = false := by
  cases ev <;> simp_all [isChunkWrite, isSidecarWrite]

theorem chunk_not_open {ev : DlEv} (h : isChunkWrite ev = true) :
    isOpenDest ev = false := by
  cases ev <;> simp_all [isChunkWrite, isOpenDest]

theorem chunkLoop_chunks (cf : Option Nat) :
    ∀ r k i, ∀ ev ∈ (chunkLoop cf k i r).2.1, isChunkWrite ev = true := by
  intro r
  induction r with
  | zero => intro k i ev hev; simp [chunkLoop] at hev
  | succ r ih =>
    intro k i ev hev
    unfold chunkLoop at hev
    by_cases hc : cancelledAt cf k = true
    · rw [if_pos hc] at hev
      simp at hev
    · rw [if_neg hc] at hev
      simp only [List.mem_cons] at hev
      rcases hev with rfl | hev
      · rfl
      · exact ih (k + 1) (i + 1) ev hev

theorem chunkLoop_complete_len (cf : Option Nat) :
    ∀ r k i, (chunkLoop cf k i r).1 = true →
      (chunkLoop cf k i r).2.1.length = r := by
  intro r
  induction r with
  | zero => intro k i _; rfl
  | succ r ih =>
    intro k i hdone
    unfold chunkLoop at hdone ⊢
    by_cases hc : cancelledAt cf k = true
    · rw [if_pos hc] at hdone
      cases hdone
    · rw [if_neg hc] at hdone ⊢
      have := ih (k + 1) (i + 1) hdone
      simp [this]

/-- C3.  In every execution of `download_to_file`: at most one validator
write ever happens; the run succeeds exactly when the trace ends in the one
validator write, preceded by a sidecar-free prefix containing all
`nChunks` body-chunk writes and exactly one opening of the (single)
destination file; and every non-success outcome — in particular a fetch
cancelled at a per-chunk checkpoint, which may have written some chunks —
performs zero validator writes. -/
theorem download_to_file_sidecar_discipline (cf : Option Nat) (e : DlEnv) :
    ((downloadToFile cf e).2.filter isSidecarWrite).length ≤ 1 ∧
    ((downloadToFile cf e).1 = .success ↔
      ∃ l, (downloadToFile cf e).2 =
          l ++ [DlEv.writeSidecar (e.resp.etag.getD "") e.resp.lastModified
            e.resp.contentLength] ∧
        l.filter isSidecarWrite = [] ∧
        (l.filter isChunkWrite).length = e.resp.nChunks ∧
        (l.filter isOpenDest).length = 1) ∧
    ((downloadToFile cf e).1 ≠ .success →
      (downloadToFile cf e).2.filter isSidecarWrite = []) := by
  unfold downloadToFile downloadToFileAux
  split
  · refine ⟨by simp, ⟨fun h => by simp at h, ?_⟩, fun _ => by simp⟩
    rintro ⟨l, hl, -, -, -⟩
    simp at hl
  · split
    · refine ⟨by simp, ⟨fun h => by simp at h, ?_⟩, fun _ => by simp⟩
      rintro ⟨l, hl, -, -, -⟩
      simp at hl
    · split
      · refine ⟨by simp, ⟨fun h => by simp at h, ?_⟩, fun _ => by simp⟩
        rintro ⟨l, hl, -, -, -⟩
        simp at hl
      · split
        · refine ⟨by simp [isSidecarWrite], ⟨fun h => by simp at h, ?_⟩,
            fun _ => by simp [isSidecarWrite]⟩
          rintro ⟨l, hl, -, -, -⟩
          rcases l with _ | ⟨x, l⟩ <;> simp [isSidecarWrite] at hl
        · split
          · refine ⟨by simp [isSidecarWrite], ⟨fun h => by simp at h, ?_⟩,
              fun _ => by simp [isSidecarWrite]⟩
            rintro ⟨l, hl, -, -, -⟩
            rcases l with _ | ⟨x, l⟩ <;> simp [isSidecarWrite] at hl
          · split
            · refine ⟨by simp [isSidecarWrite], ⟨fun h => by simp at h, ?_⟩,
                fun _ => by simp [isSidecarWrite]⟩
              rintro ⟨l, hl, -, -, -⟩
              rcases l with _ | ⟨x, l⟩ <;> simp [isSidecarWrite] at hl
            · split
              · rename_i hbody
                have hchunks := chunkLoop_chunks cf e.resp.nChunks 3 0
                have hlen := chunkLoop_complete_len cf e.resp.nChunks 3 0 hbody
                have hnosc :
                    (chunkLoop cf 3 0 e.resp.nChunks).2.1.filter isSidecarWrite
                      = [] :=
                  List.filter_eq_nil.2 fun ev hev => by
                    rw [chunk_not_sidecar (hchunks ev hev)]
                    simp
                have hnoop :
                    (chunkLoop cf 3 0 e.resp.nChunks).2.1.filter isOpenDest
                      = [] :=
                  List.filter_eq_nil.2 fun ev hev => by
                    rw [chunk_not_open (hchunks ev hev)]
                    simp
                have hself :
                    (chunkLoop cf 3 0 e.resp.nChunks).2.1.filter isChunkWrite
                      = (chunkLoop cf 3 0 e.resp.nChunks).2.1 :=
                  List.filter_eq_self.2 fun ev hev => hchunks ev hev
                refine ⟨?_, ⟨fun _ => ?_, fun _ => rfl⟩, fun h => absurd rfl h⟩
                · simp [isSidecarWrite, hnosc]
                · exact ⟨DlEv.getRequest (condHeaders (loadCache e).1).1
                      (condHeaders (loadCache e).1).2 ::
                    DlEv.openDest :: (chunkLoop cf 3 0 e.resp.nChunks).2.1,
                    by simp, by simp [isSidecarWrite, hnosc],
                    by simp [isChunkWrite, hself, hlen],
                    by simp [isOpenDest, hnoop]⟩
              · have hchunks := chunkLoop_chunks cf e.resp.nChunks 3 0
                have hnosc :
                    (chunkLoop cf 3 0 e.resp.nChunks).2.1.filter isSidecarWrite
                      = [] :=
                  List.filter_eq_nil.2 fun ev hev => by
                    rw [chunk_not_sidecar (hchunks ev hev)]
                    simp
                refine ⟨?_, ⟨fun h => by simp at h, ?_⟩, fun _ => ?_⟩
                · simp [isSidecarWrite, hnosc]
                · rintro ⟨l, hl, -, -, -⟩
                  have hmem : DlEv.writeSidecar (e.resp.etag.getD "")
                      e.resp.lastModified e.resp.contentLength ∈
                      l ++ [DlEv.writeSidecar (e.resp.etag.getD "")
                        e.resp.lastModified e.resp.contentLength] := by simp
                  rw [← hl] at hmem
                  simp only [List.mem_cons] at hmem
                  rcases hmem with h | h | h
                  · cases h
                  · cases h
                  · have := chunk_not_sidecar (hchunks _ h)
                    simp [isSidecarWrite] at this
                · simp [isSidecarWrite, hnosc]

def c3env : DlEnv :=
  { url := "w", fileExists := false, fileSize := 0, sidecar := .absent,
    downloadedUrls := [], resp := ⟨200, some "E", some "L", some "2", 2⟩ }

theorem download_to_file_sidecar_discipline_witness :
    ((downloadToFile none c3env).2.filter isSidecarWrite).length ≤ 1 ∧
    ∃ l, (downloadToFile none c3env).2 =
        l ++ [DlEv.writeSidecar (c3env.resp.etag.getD "")
          c3env.resp.lastModified c3env.resp.contentLength] ∧
      l.filter isSidecarWrite = [] ∧
      (l.filter isChunkWrite).length = c3env.resp.nChunks ∧
      (l.filter isOpenDest).length = 1 := by
  have h := download_to_file_sidecar_discipline none c3env
  exact ⟨h.1, h.2.1.mp rfl⟩

/-! ## C10: resilience of cache loading -/

/-- A sidecar that parses as JSON but has no Content-Length key, while an
ETag entry is present. -/
def c10env : DlEnv :=
  { url := "u", fileExists := true, fileSize := 5,
    sidecar := .json ⟨none, none, some (.str "abc")⟩,
    downloadedUrls := [], resp := ⟨200, none, none, none, 1⟩ }

/-- C10, counterexample to the claim as stated: on a malformed sidecar
(valid JSON, `Content-Length` key absent) the `int(...)` lookup raises, the
exception is swallowed — but `stored_headers` keeps the parsed dict, so the
fetch is *not* an unconditional cache-miss fetch: the GET goes out with
`If-None-Match: "abc"`. -/
theorem download_to_file_malformed_cex :
    c10env.sidecar = .json ⟨none, none, some (.str "abc")⟩ ∧
    (downloadToFile none c10env).2 =
      [DlEv.getRequest none (some (.str "abc")), DlEv.openDest,
       DlEv.writeChunk 0, DlEv.writeSidecar "" none none] :=
  ⟨rfl, rfl⟩

/-- C10 (amended).  Reading the sidecar never raises out of
`download_to_file`: every exception during cache loading is caught and the
fetch proceeds.  A sidecar that is absent or unreadable/non-JSON (or a
missing destination file) yields a cache-miss fetch with no conditional
headers; but a sidecar that parses as JSON with an absent or non-integer
`Content-Length` keeps its already-parsed entries, and the GET carries
whatever truthy `Last-Modified`/`ETag` values it held. -/
theorem download_to_file_cache_load_safe (cf : Option Nat) (e : DlEnv)
    (hc1 : cancelledAt cf 1 = false) :
    (e.sidecar = .unreadable ∨ e.sidecar = .absent ∨ e.fileExists = false →
      ∃ rest, (downloadToFile cf e).2 = DlEv.getRequest none none :: rest) ∧
    (∀ d, e.fileExists = true → e.sidecar = .json d → d.contentLength = none →
      ∃ rest, (downloadToFile cf e).2 =
        DlEv.getRequest (headerIfTruthy d.lastModified)
          (headerIfTruthy d.etag) :: rest) ∧
    (∀ d v, e.fileExists = true → e.sidecar = .json d →
      d.contentLength = some v → pyInt v = none →
      ∃ rest, (downloadToFile cf e).2 =
        DlEv.getRequest (headerIfTruthy d.lastModified)
          (headerIfTruthy d.etag) :: rest) := by
  refine ⟨?_, ?_, ?_⟩
  · intro h
    have := downloadToFile_get_head cf e emptyHeaders (loadCache_miss e h) hc1
    simpa [condHeaders, emptyHeaders, headerIfTruthy] using this
  · intro d hfile hsc hcl
    exact downloadToFile_get_head cf e d (loadCache_noCL e d hfile hsc hcl) hc1
  · intro d v hfile hsc hcl hn
    exact downloadToFile_get_head cf e d (loadCache_badCL e d v hfile hsc hcl hn)
      hc1

def c10unreadable : DlEnv := { c10env with sidecar := .unreadable }

theorem download_to_file_cache_load_safe_witness :
    (∃ rest, (downloadToFile none c10unreadable).2 =
      DlEv.getRequest none none :: rest) ∧
    ∃ rest, (downloadToFile none c10env).2 =
      DlEv.getRequest (headerIfTruthy (none : Option PyVal))
        (headerIfTruthy (some (.str "abc"))) :: rest := by
  constructor
  · exact (download_to_file_cache_load_safe none c10unreadable rfl).1
      (Or.inl rfl)
  · exact (download_to_file_cache_load_safe none c10env rfl).2.1
      ⟨none, none, some (.str "abc")⟩ rfl rfl rfl

/-! ## C7: the scheduler swallows task exceptions -/

/-- The events of one `kick_async_loop` call. -/
def kickEvents (step : List TaskState → List TaskState) (s : LoopState) :
    List KickEv :=
  match kick step s with
  | .ok r => r.2
  | .error _ => []

theorem reapFrom_log_iff :
    ∀ (ts : List TaskState), ts.all TaskState.isDone = true →
    ∀ (b i : Nat) (e : PyExn),
      (KickEv.logException i e ∈ reapFrom b ts ↔
        ∃ m, b ≤ i ∧ ts.get? (i - b) = some (.doneErr m) ∧ e = .exn m)
  | [], _, b, i, e => by simp [reapFrom]
  | t :: ts, hall, b, i, e => by
    simp only [List.all_cons, Bool.and_eq_true] at hall
    obtain ⟨ht, hts⟩ := hall
    have ih := reapFrom_log_iff ts hts (b + 1) i e
    unfold reapFrom
    cases t with
    | pending => simp [TaskState.isDone] at ht
    | doneOk =>
      simp only [taskResult]
      constructor
      · intro h
        simp at h
        rcases ih.1 h with ⟨m, hbi, hget, he⟩
        refine ⟨m, by omega, ?_, he⟩
        rw [show i - b = (i - (b + 1)) + 1 by omega]
        simpa using hget
      · rintro ⟨m, hbi, hget, he⟩
        rcases Nat.eq_or_lt_of_le hbi with rfl | hlt
        · simp at hget
        · rw [show i - b = (i - (b + 1)) + 1 by omega] at hget
          simp only [List.get?_cons_succ] at hget
          simp
          exact ih.2 ⟨m, by omega, hget, he⟩
    | doneCancelled =>
      simp only [taskResult]
      constructor
      · intro h
        simp at h
        rcases ih.1 h with ⟨m, hbi, hget, he⟩
        refine ⟨m, by omega, ?_, he⟩
        rw [show i - b = (i - (b + 1)) + 1 by omega]
        simpa using hget
      · rintro ⟨m, hbi, hget, he⟩
        rcases Nat.eq_or_lt_of_le hbi with rfl | hlt
        · simp at hget
        · rw [show i - b = (i - (b + 1)) + 1 by omega] at hget
          simp only [List.get?_cons_succ] at hget
          simp
          exact ih.2 ⟨m, by omega, hget, he⟩
    | doneErr m0 =>
      simp only [taskResult]
      constructor
      · intro h
        simp at h
        rcases h with ⟨rfl, rfl⟩ | h
        · exact ⟨m0, le_refl _, by simp, rfl⟩
        · rcases ih.1 h with ⟨m, hbi, hget, he⟩
          refine ⟨m, by omega, ?_, he⟩
          rw [show i - b = (i - (b + 1)) + 1 by omega]
          simpa using hget
      · rintro ⟨m, hbi, hget, he⟩
        rcases Nat.eq_or_lt_of_le hbi with rfl | hlt
        · simp at hget
          subst hget
          subst he
          simp
        · rw [show i - b = (i - (b + 1)) + 1 by omega] at hget
          simp only [List.get?_cons_succ] at hget
          simp
          refine Or.inr ?_
          exact ih.2 ⟨m, by omega, hget, he⟩

/-- C7.  `kick_async_loop` never re-raises a task's exception to its caller
(it always returns); an exception surfaces only through a `task.result()`
read, which happens only in the all-done reaping pass; there it is logged
and discarded, once per failed task. -/
theorem kick_async_loop_swallow (step : List TaskState → List TaskState)
    (s : LoopState) :
    (kick step s).isOk = true ∧
    (∀ i e, KickEv.logException i e ∈ kickEvents step s →
      s.loopClosed = false ∧ s.tasks ≠ [] ∧
      s.tasks.all TaskState.isDone = true ∧
      ∃ m, s.tasks.get? i = some (.doneErr m) ∧ e = .exn m) ∧
    (∀ i, KickEv.resultRead i ∈ kickEvents step s →
      s.loopClosed = false ∧ s.tasks ≠ [] ∧
      s.tasks.all TaskState.isDone = true) ∧
    (s.loopClosed = false → s.tasks ≠ [] →
      s.tasks.all TaskState.isDone = true →
      ∀ i m, s.tasks.get? i = some (.doneErr m) →
        KickEv.logException i (.exn m) ∈ kickEvents step s) := by
  unfold kick kickEvents
  split
  · rename_i hclosed
    refine ⟨rfl, ?_, ?_, ?_⟩
    · intro i e h
      simp [kick, hclosed] at h
    · intro i h
      simp [kick, hclosed] at h
    · intro hnc
      rw [hclosed] at hnc
      cases hnc
  · split
    · rename_i hclosed hempty
      refine ⟨rfl, ?_, ?_, ?_⟩
      · intro i e h
        simp [kick, hclosed, hempty] at h
      · intro i h
        simp [kick, hclosed, hempty] at h
      · intro _ hne
        simp only [List.isEmpty_iff] at hempty
        exact absurd hempty hne
    · split
      · rename_i hclosed hempty hall
        have hclosed' : s.loopClosed = false := by
          simpa using hclosed
        have hne : s.tasks ≠ [] := by
          simpa [List.isEmpty_iff] using hempty
        refine ⟨rfl, ?_, ?_, ?_⟩
        · intro i e h
          simp only [kick, hclosed', Bool.false_eq_true, if_false, hempty,
            hall, if_true] at h
          rcases List.mem_append.1 h with h | h
          · have := (reapFrom_log_iff s.tasks hall 0 i e).1 h
            rcases this with ⟨m, _, hget, he⟩
            exact ⟨hclosed', hne, hall, ⟨m, by simpa using hget, he⟩⟩
          · simp at h
        · intro i h
          exact ⟨hclosed', hne, hall⟩
        · intro _ _ _ i m hget
          simp only [kick, hclosed', Bool.false_eq_true, if_false, hempty,
            hall, if_true]
          refine List.mem_append_left _ ?_
          exact (reapFrom_log_iff s.tasks hall 0 i (.exn m)).2
            ⟨m, by omega, by simpa using hget, rfl⟩
      · rename_i hclosed hempty hall
        refine ⟨rfl, ?_, ?_, ?_⟩
        · intro i e h
          simp [kick, hclosed, hempty, hall] at h
        · intro i h
          simp [kick, hclosed, hempty, hall] at h
        · intro _ _ hall2
          rw [hall2] at hall
          exact absurd rfl hall

def s7 : LoopState :=
  { loopClosed := false,
    tasks := [.doneOk, .doneErr "boom", .doneCancelled],
    handlers := [kickName] }

theorem kick_async_loop_swallow_witness :
    (kick id s7).isOk = true ∧
    KickEv.logException 1 (.exn "boom") ∈ kickEvents id s7 := by
  have h := kick_async_loop_swallow id s7
  exact ⟨h.1, h.2.2.2 rfl (by simp [s7]) rfl 1 "boom" rfl⟩

/-! ## C8: idle deactivation and idempotent registration -/

theorem kick_isOk (step : List TaskState → List TaskState) (s : LoopState) :
    (kick step s).isOk = true := by
  unfold kick
  split
  · rfl
  · split
    · rfl
    · split
      · rfl
      · rfl

theorem find_kick_eq (hs : List String) (h : kickName ∈ hs) :
    asyncLoopHandler hs = some kickName := by
  unfold asyncLoopHandler
  have hsome : (hs.find? (fun x => x == kickName)).isSome := by
    rw [List.find?_isSome]
    exact ⟨kickName, h, by simp⟩
  obtain ⟨a, ha⟩ := Option.isSome_iff_exists.1 hsome
  have := List.find?_some ha
  have haeq : a = kickName := by simpa using this
  rw [ha, haeq]

theorem stop_absent (hs : List String) (h : kickName ∉ hs) :
    stopAsyncLoop hs = hs := by
  unfold stopAsyncLoop asyncLoopHandler
  have : hs.find? (fun x => x == kickName) = none := by
    rw [List.find?_eq_none]
    intro x hx hbeq
    rw [show x = kickName by simpa using hbeq] at hx
    exact h hx
  rw [this]

theorem stop_erase (hs : List String) (h : kickName ∈ hs) :
    stopAsyncLoop hs = hs.erase kickName := by
  unfold stopAsyncLoop
  rw [find_kick_eq hs h]

theorem stop_count_le (hs : List String) :
    (stopAsyncLoop hs).count kickName ≤ hs.count kickName := by
  by_cases hm : kickName ∈ hs
  · rw [stop_erase hs hm, List.count_erase_self]
    omega
  · rw [stop_absent hs hm]

theorem stop_not_mem (hs : List String) (h : hs.count kickName ≤ 1) :
    kickName ∉ stopAsyncLoop hs := by
  by_cases hm : kickName ∈ hs
  · rw [stop_erase hs hm]
    have : (hs.erase kickName).count kickName = 0 := by
      rw [List.count_erase_self]
      omega
    exact List.count_eq_zero.1 this
  · rw [stop_absent hs hm]
    exact hm

theorem kick_never_errors (step : List TaskState → List TaskState)
    (s : LoopState) (e : PyExn) (hk : kick step s = .error e) : False := by
  unfold kick at hk
  split at hk
  · cases hk
  · split at hk
    · cases hk
    · split at hk
      · cases hk
      · cases hk

theorem kickStep_shape (step : List TaskState → List TaskState)
    (s : LoopState) :
    (kickStep step s).handlers = stopAsyncLoop s.handlers ∨
    (kickStep step s).handlers = s.handlers := by
  unfold kickStep
  rcases hk : kick step s with e | r
  · exact absurd hk (fun hc => kick_never_errors step s e hc)
  · unfold kick at hk
    split at hk
    · cases hk
      exact Or.inl rfl
    · split at hk
      · cases hk
        exact Or.inl rfl
      · split at hk
        · cases hk
          exact Or.inl rfl
        · cases hk
          exact Or.inr rfl

theorem kickStep_not_mem (step : List TaskState → List TaskState)
    (s : LoopState) (h : kickName ∉ s.handlers) :
    kickName ∉ (kickStep step s).handlers := by
  rcases kickStep_shape step s with he | he <;> rw [he]
  · rw [stop_absent _ h]
    exact h
  · exact h

theorem kickIter_not_mem (step : List TaskState → List TaskState) :
    ∀ (n : Nat) (s : LoopState), kickName ∉ s.handlers →
      kickName ∉ (kickIter step n s).handlers
  | 0, _, h => h
  | n + 1, s, h => kickIter_not_mem step n _ (kickStep_not_mem step s h)

theorem kickStep_idle (step : List TaskState → List TaskState)
    (s : LoopState) (h : s.tasks = []) :
    (kickStep step s).handlers = stopAsyncLoop s.handlers := by
  unfold kickStep
  rcases hk : kick step s with e | r
  · exact absurd hk (fun hc => kick_never_errors step s e hc)
  · unfold kick at hk
    split at hk
    · cases hk
      rfl
    · split at hk
      · cases hk
        rfl
      · split at hk
        · cases hk
          rfl
        · rename_i h1 h2 h3
          exfalso
          rw [h] at h2
          simp at h2

theorem ensure_mem (hs : List String) (h : kickName ∈ hs) :
    ensureAsyncLoop hs = hs := by
  unfold ensureAsyncLoop
  rw [find_kick_eq hs h]

theorem ensure_absent (hs : List String) (h : kickName ∉ hs) :
    ensureAsyncLoop hs = hs ++ [kickName] := by
  unfold ensureAsyncLoop asyncLoopHandler
  have : hs.find? (fun x => x == kickName) = none := by
    rw [List.find?_eq_none]
    intro x hx hbeq
    rw [show x = kickName by simpa using hbeq] at hx
    exact h hx
  rw [this]

/-- C8.  Per-frame kicking when idle is safe and self-deactivating: `kick`
always returns (never throws); one call never increases the number of
registered `kick_async_loop` handlers; once the handler is gone no number
of further calls re-registers it; with no tasks left and at most one
registration, one call removes the hook and it stays removed; registration
is idempotent by stable handler identity, and deregistering an absent
handler is a no-op. -/
theorem kick_async_loop_idle (step : List TaskState → List TaskState)
    (s : LoopState) (n : Nat) :
    (kick step (kickIter step n s)).isOk = true ∧
    (kickStep step s).handlers.count kickName ≤ s.handlers.count kickName ∧
    (kickName ∉ s.handlers → kickName ∉ (kickIter step n s).handlers) ∧
    (s.tasks = [] → s.handlers.count kickName ≤ 1 → 1 ≤ n →
      kickName ∉ (kickIter step n s).handlers) ∧
    ensureAsyncLoop (ensureAsyncLoop s.handlers) = ensureAsyncLoop s.handlers ∧
    (kickName ∈ s.handlers → ensureAsyncLoop s.handlers = s.handlers) ∧
    (kickName ∉ s.handlers → stopAsyncLoop s.handlers = s.handlers) := by
  refine ⟨kick_isOk step _, ?_, kickIter_not_mem step n s, ?_, ?_,
    ensure_mem s.handlers, stop_absent s.handlers⟩
  · rcases kickStep_shape step s with he | he
    · rw [he]
      exact stop_count_le s.handlers
    · rw [he]
  · intro htasks hcount hn
    cases n with
    | zero => omega
    | succ m =>
      show kickName ∉ (kickIter step m (kickStep step s)).handlers
      refine kickIter_not_mem step m _ ?_
      rw [kickStep_idle step s htasks]
      exact stop_not_mem s.handlers hcount
  · by_cases h : kickName ∈ s.handlers
    · rw [ensure_mem s.handlers h, ensure_mem s.handlers h]
    · rw [ensure_absent s.handlers h, ensure_mem _ (by simp)]

def s8 : LoopState := { loopClosed := false, tasks := [], handlers := ["other", kickName] }

theorem kick_async_loop_idle_witness :
    kickName ∉ (kickIter id 2 s8).handlers ∧
    ensureAsyncLoop (ensureAsyncLoop s8.handlers) =
      ensureAsyncLoop s8.handlers := by
  have h := kick_async_loop_idle id s8 2
  refine ⟨h.2.2.2.1 rfl ?_ (by omega), h.2.2.2.2.1⟩
  show (["other", kickName].count kickName) ≤ 1
  simp [kickName]

/-! ## C9: path replacement ordering -/

/-- C9.  Evaluating `Manager.replace_path` on the repository's own test data
(`tests/test_path_replacement.py`, platform `linux`, input
`/render/long/agent327/scenes`): the sort key of
`_sorted_path_replacements` compares the per-platform dicts of `render` and
`longrender` (both have 3 platform entries, so the `-len(item[1])`
components tie), and Python raises `TypeError` because dicts are unordered
— instead of producing the test's expected result, which requires the
longest matching concrete path (`/render/long` → `longrender`) to win. -/
theorem replace_path_longest_cex :
    replacePath (some testPathReplacement) "linux"
      ["/", "render", "long", "agent327", "scenes"] = .error () ∧
    ∀ sres, replacePath (some testPathReplacement) "linux"
      ["/", "render", "long", "agent327", "scenes"] ≠ .ok sres := by
  refine ⟨rfl, fun sres h => ?_⟩
  rw [show replacePath (some testPathReplacement) "linux"
    ["/", "render", "long", "agent327", "scenes"] = .error () from rfl] at h
  cases h
